import Mathlib

/-!
Verification of the FaceMesh landmark-selector core.

This file shallowly embeds the program's data model and operations:

* `src/utils/geometry.ts` — vector helpers and `calculateSymmetryMap`;
* `src/components/CanvasArea.tsx` — `screenToWorld`, the render transform
  (translate-then-scale, whose inverse is `worldToScreen`), `handleWheel`,
  the hover scan inside `handlePointerMove`, and `performSelection`;
* `src/App.tsx` — `handleSelectionChange`, `handleExport`'s object
  construction, and `handleImportJSON`'s object-of-arrays branch.

Numbers are embedded as exact rationals (`ℚ`).  The only places the source
uses an operation with no exact rational counterpart are:

* `Math.exp` in `handleWheel` — modelled by an arbitrary positive zoom
  factor parameter, since `exp` only ever produces a positive factor;
* `Math.sqrt` in the hover test `Math.sqrt(dsq) < thresh` — embedded as the
  equivalent comparison `0 < thresh ∧ dsq < thresh²`, exact because `dsq`
  is a sum of squares (hence nonnegative);
* `Math.sqrt` inside `normalize` in `calculateSymmetryMap` — the normal
  `n = u/√(u·u)` is used only in `2·dot(v,n)·n`, where the square root
  cancels: `2·dot(v,n)·n = (2·dot(v,u)/(u·u))·u`.  `reflectAcross` uses
  that exact form, and `reflectAcross_eq_normalized` proves it equal to the
  source's normalized form whenever a rational square root exists.
-/

namespace FaceMesh

/-- A landmark point: `{x, y, z}` (`NormalizedLandmark` / `Point3D` in the
source), embedded with exact rational coordinates. -/
structure Point3D where
  x : ℚ
  y : ℚ
  z : ℚ
deriving DecidableEq, Repr

/-- `sub(a, b)` from geometry.ts: componentwise difference. -/
def sub (a b : Point3D) : Point3D :=
  ⟨a.x - b.x, a.y - b.y, a.z - b.z⟩

/-- `cross(a, b)` from geometry.ts: the 3D cross product. -/
def cross (a b : Point3D) : Point3D :=
  ⟨a.y * b.z - a.z * b.y, a.z * b.x - a.x * b.z, a.x * b.y - a.y * b.x⟩

/-- `dot(a, b)` from geometry.ts. -/
def dot (a b : Point3D) : ℚ :=
  a.x * b.x + a.y * b.y + a.z * b.z

/-- `scaleVec(a, s)` from geometry.ts. -/
def scaleVec (a : Point3D) (s : ℚ) : Point3D :=
  ⟨a.x * s, a.y * s, a.z * s⟩

/-- The squared Euclidean distance `(q.x - r.x)**2 + (q.y - r.y)**2 +
(q.z - r.z)**2` computed inline in `calculateSymmetryMap`'s inner loop. -/
def distSq3 (q r : Point3D) : ℚ :=
  (q.x - r.x) ^ 2 + (q.y - r.y) ^ 2 + (q.z - r.z) ^ 2

/-- The reflection step of `calculateSymmetryMap`:
`v = sub(p, planePoint); dist = dot(v, planeNormal);
reflection = sub(p, scaleVec(planeNormal, 2 * dist))` where
`planeNormal = normalize u`.  Because `normalize u = u/√(u·u)` appears
exactly twice in the product, the square root cancels and the reflection
equals `p - (2·dot(p - p0, u)/(u·u))·u`, which is the exact rational form
used here.  When `‖u‖ = 0` the source's `normalize` returns the zero
vector, making the reflection `p` itself, which the guard reproduces
(`dot u u = 0` iff `‖u‖ = 0`, as `dot u u` is a sum of squares). -/
def reflectAcross (p0 u p : Point3D) : Point3D :=
  if dot u u = 0 then p
  else sub p (scaleVec u (2 * dot (sub p p0) u / dot u u))

/-- Faithfulness of `reflectAcross` to the source's normalized form: if the
squared norm `dot u u` has a rational square root `s > 0`, then reflecting
with the unit normal `n = scaleVec u (1/s)` via the source's
`sub p (scaleVec n (2 * dot (sub p p0) n))` agrees with `reflectAcross`. -/
theorem reflectAcross_eq_normalized (p0 u p : Point3D) (s : ℚ)
    (hs : 0 < s) (hsq : s ^ 2 = dot u u) :
    sub p (scaleVec (scaleVec u (1 / s))
      (2 * dot (sub p p0) (scaleVec u (1 / s)))) = reflectAcross p0 u p := by
  have hu : dot u u ≠ 0 := by
    rw [← hsq]; positivity
  have hs0 : s ≠ 0 := ne_of_gt hs
  unfold reflectAcross
  rw [if_neg hu]
  unfold sub scaleVec dot at *
  have hx : u.x * (1 / s) * (2 * ((p.x - p0.x) * (u.x * (1 / s)) +
      (p.y - p0.y) * (u.y * (1 / s)) + (p.z - p0.z) * (u.z * (1 / s)))) =
      u.x * (2 * ((p.x - p0.x) * u.x + (p.y - p0.y) * u.y + (p.z - p0.z) * u.z) /
        (u.x * u.x + u.y * u.y + u.z * u.z)) := by
    rw [← hsq]; field_simp; ring_nf; exact Or.inl trivial
  have hy : u.y * (1 / s) * (2 * ((p.x - p0.x) * (u.x * (1 / s)) +
      (p.y - p0.y) * (u.y * (1 / s)) + (p.z - p0.z) * (u.z * (1 / s)))) =
      u.y * (2 * ((p.x - p0.x) * u.x + (p.y - p0.y) * u.y + (p.z - p0.z) * u.z) /
        (u.x * u.x + u.y * u.y + u.z * u.z)) := by
    rw [← hsq]; field_simp; ring_nf; exact Or.inl trivial
  have hz : u.z * (1 / s) * (2 * ((p.x - p0.x) * (u.x * (1 / s)) +
      (p.y - p0.y) * (u.y * (1 / s)) + (p.z - p0.z) * (u.z * (1 / s)))) =
      u.z * (2 * ((p.x - p0.x) * u.x + (p.y - p0.y) * u.y + (p.z - p0.z) * u.z) /
        (u.x * u.x + u.y * u.y + u.z * u.z)) := by
    rw [← hsq]; field_simp; ring_nf; exact Or.inl trivial
  simp only [Point3D.mk.injEq]
  refine ⟨?_, ?_, ?_⟩
  · rw [hx]
  · rw [hy]
  · rw [hz]

/-! ### ViewTransform (CanvasArea.tsx) -/

/-- `screenToWorld(sx, sy)` from CanvasArea.tsx:
`((sx - pan.x)/scale, (sy - pan.y)/scale)`. -/
def screenToWorld (scale panx pany sx sy : ℚ) : ℚ × ℚ :=
  ((sx - panx) / scale, (sy - pany) / scale)

/-- The inverse map applied by the draw loop's
`ctx.translate(pan.x, pan.y); ctx.scale(scale, scale)`: a world point lands
on screen at `world * scale + pan`. -/
def worldToScreen (scale panx pany wx wy : ℚ) : ℚ × ℚ :=
  (wx * scale + panx, wy * scale + pany)

/-- `handleWheel` from CanvasArea.tsx, given the zoom factor
`zf = Math.exp(-e.deltaY * 0.001)` (modelled as a parameter since `exp` is
transcendental; it is always positive).  Returns
`(newScale, newPanX, newPanY)` with
`newScale = max(0.1, min(20, scale * zf))` and the pan recomputed from the
old scale. -/
def handleWheel (scale panx pany zf mouseX mouseY : ℚ) : ℚ × ℚ × ℚ :=
  let newScale := max (1 / 10) (min 20 (scale * zf))
  let newPanX := mouseX - (mouseX - panx) * (newScale / scale)
  let newPanY := mouseY - (mouseY - pany) * (newScale / scale)
  (newScale, newPanX, newPanY)

/-- C5: for a view with `scale ∈ [0.1, 20]` and any positive zoom factor,
`handleWheel` clamps the new scale to `[0.1, 20]` (hitting exactly `0.1`
resp. `20` when the requested product falls outside) and preserves the
screen position of the world point under the cursor: mapping the cursor to
world space with the old view and back to screen space with the new view
returns the cursor position exactly. -/
theorem handleWheel_clamps_and_preserves_anchor
    (scale panx pany zf mouseX mouseY : ℚ)
    (hlo : 1 / 10 ≤ scale) (hhi : scale ≤ 20) (hzf : 0 < zf) :
    (handleWheel scale panx pany zf mouseX mouseY).1 =
      max (1 / 10) (min 20 (scale * zf)) ∧
    (scale * zf < 1 / 10 →
      (handleWheel scale panx pany zf mouseX mouseY).1 = 1 / 10) ∧
    (20 < scale * zf →
      (handleWheel scale panx pany zf mouseX mouseY).1 = 20) ∧
    (1 / 10 ≤ scale * zf → scale * zf ≤ 20 →
      (handleWheel scale panx pany zf mouseX mouseY).1 = scale * zf) ∧
    worldToScreen (handleWheel scale panx pany zf mouseX mouseY).1
      (handleWheel scale panx pany zf mouseX mouseY).2.1
      (handleWheel scale panx pany zf mouseX mouseY).2.2
      (screenToWorld scale panx pany mouseX mouseY).1
      (screenToWorld scale panx pany mouseX mouseY).2 = (mouseX, mouseY) := by
  have hscale : (0 : ℚ) < scale := lt_of_lt_of_le (by norm_num) hlo
  have hsne : scale ≠ 0 := ne_of_gt hscale
  refine ⟨rfl, ?_, ?_, ?_, ?_⟩
  · intro h
    have h20 : scale * zf ≤ 20 := le_trans (le_of_lt h) (by norm_num)
    simp only [handleWheel]
    rw [min_eq_right h20, max_eq_left (le_of_lt h)]
  · intro h
    simp only [handleWheel]
    rw [min_eq_left (le_of_lt h), max_eq_right (by norm_num)]
  · intro h1 h2
    simp only [handleWheel]
    rw [min_eq_right h2, max_eq_right h1]
  · simp only [handleWheel, worldToScreen, screenToWorld, Prod.mk.injEq]
    constructor
    · field_simp
      try ring
    · field_simp
      try ring

/-- Witness for C5 at `scale = 1`, `pan = (7, -3)`, `zf = 2`,
cursor `(30, 40)`. -/
theorem handleWheel_clamps_and_preserves_anchor_witness :
    (handleWheel 1 7 (-3) 2 30 40).1 = max (1 / 10) (min 20 ((1 : ℚ) * 2)) ∧
    ((1 : ℚ) * 2 < 1 / 10 → (handleWheel 1 7 (-3) 2 30 40).1 = 1 / 10) ∧
    ((20 : ℚ) < 1 * 2 → (handleWheel 1 7 (-3) 2 30 40).1 = 20) ∧
    ((1 : ℚ) / 10 ≤ 1 * 2 → (1 : ℚ) * 2 ≤ 20 →
      (handleWheel 1 7 (-3) 2 30 40).1 = 1 * 2) ∧
    worldToScreen (handleWheel 1 7 (-3) 2 30 40).1
      (handleWheel 1 7 (-3) 2 30 40).2.1 (handleWheel 1 7 (-3) 2 30 40).2.2
      (screenToWorld 1 7 (-3) 30 40).1 (screenToWorld 1 7 (-3) 30 40).2 =
      (30, 40) :=
  handleWheel_clamps_and_preserves_anchor 1 7 (-3) 2 30 40
    (by norm_num) (by norm_num) (by norm_num)

/-! ### HoverProbe (`handlePointerMove` in CanvasArea.tsx) -/

/-- The per-landmark hover test from `handlePointerMove`:
`lx = l.x * naturalWidth; ly = l.y * naturalHeight;
dist = Math.sqrt((lx - worldPos.x)**2 + (ly - worldPos.y)**2);
dist < hoverThresh`.  Since the squared distance is nonnegative,
`√dsq < t` holds exactly when `0 < t ∧ dsq < t²`, which is the rational
form used here. -/
def hoverHit (imgW imgH : ℚ) (w : ℚ × ℚ) (t : ℚ) (l : Point3D) : Bool :=
  decide (0 < t ∧ (l.x * imgW - w.1) ^ 2 + (l.y * imgH - w.2) ^ 2 < t ^ 2)

/-- The hover loop from `handlePointerMove`: `foundHover` starts at `-1` and
is overwritten by the index of every landmark passing the hover test, in
scan order (`landmarks.forEach((l, i) => { if (dist < hoverThresh)
foundHover = i; })`). -/
def hoverScan (hit : Point3D → Bool) : List Point3D → ℕ → ℤ → ℤ
  | [], _, found => found
  | l :: rest, i, found =>
      hoverScan hit rest (i + 1) (if hit l then (i : ℤ) else found)

/-- The hover probe of `handlePointerMove`: world position from
`screenToWorld`, threshold `hoverThresh = 5 / scale`, returning the final
`foundHover` (`-1` meaning "no hover", which the caller maps to `null`). -/
def hoverProbe (lms : List Point3D) (imgW imgH scale panx pany sx sy : ℚ) : ℤ :=
  hoverScan
    (hoverHit imgW imgH (screenToWorld scale panx pany sx sy) (5 / scale))
    lms 0 (-1)

/-- Characterization of the hover loop: either some landmark passes the test
and the result is the offset index of the last one that does, or none does
and the accumulator is returned unchanged. -/
theorem hoverScan_spec (hit : Point3D → Bool) (pts : List Point3D) :
    ∀ (n : ℕ) (found : ℤ),
      (∃ k l, pts.get? k = some l ∧ hit l = true ∧
        hoverScan hit pts n found = (n : ℤ) + k ∧
        ∀ k' l', k < k' → pts.get? k' = some l' → hit l' = false) ∨
      ((∀ k l, pts.get? k = some l → hit l = false) ∧
        hoverScan hit pts n found = found) := by
  induction pts with
  | nil =>
      intro n found
      right
      exact ⟨fun k l h => by simp [List.get?] at h, rfl⟩
  | cons p rest ih =>
      intro n found
      rcases ih (n + 1) (if hit p then (n : ℤ) else found) with
        ⟨k, l, hget, hhit, hres, hmax⟩ | ⟨hnone, hres⟩
      · left
        refine ⟨k + 1, l, by simpa using hget, hhit, ?_, ?_⟩
        · rw [hoverScan, hres]
          push_cast
          ring
        · intro k' l' hk' hget'
          match k', hget' with
          | k'' + 1, hget' =>
              exact hmax k'' l' (by omega) (by simpa using hget')
      · by_cases hp : hit p = true
        · left
          refine ⟨0, p, rfl, hp, ?_, ?_⟩
          · rw [hoverScan, hres, if_pos hp]
            push_cast
            ring
          · intro k' l' hk' hget'
            match k', hget' with
            | k'' + 1, hget' => exact hnone k'' l' (by simpa using hget')
        · right
          constructor
          · intro k l hget
            match k, hget with
            | 0, hget =>
                cases hget
                simpa using hp
            | k'' + 1, hget => exact hnone k'' l (by simpa using hget)
          · rw [hoverScan, hres, if_neg hp]

/-- C2 as stated is false: with two landmarks both inside the hover
threshold, the probe reports index 1 even though index 0 is strictly
closer to the pointer's world position (the loop keeps the last match, not
the closest). -/
theorem hoverProbe_not_closest_counterexample :
    hoverProbe [⟨0, 0, 0⟩, ⟨3, 0, 0⟩] 1 1 1 0 0 0 0 = 1 ∧
    hoverHit 1 1 (screenToWorld 1 0 0 0 0) (5 / 1) ⟨0, 0, 0⟩ = true ∧
    (((0 : ℚ) * 1 - (screenToWorld 1 0 0 0 0).1) ^ 2 +
        ((0 : ℚ) * 1 - (screenToWorld 1 0 0 0 0).2) ^ 2) <
      (((3 : ℚ) * 1 - (screenToWorld 1 0 0 0 0).1) ^ 2 +
        ((0 : ℚ) * 1 - (screenToWorld 1 0 0 0 0).2) ^ 2) := by
  refine ⟨?_, ?_, ?_⟩
  · norm_num [hoverProbe, hoverScan, hoverHit, screenToWorld]
  · norm_num [hoverHit, screenToWorld]
  · norm_num [screenToWorld]

/-- C2 amended: for a positive scale, the hover probe returns `-1` when no
landmark's world distance to the converted pointer position is below the
threshold `5 / scale`, and otherwise returns the index of the **last**
landmark in scan order (the highest index) whose distance is below the
threshold — not necessarily the closest one. -/
theorem hoverProbe_last_within_threshold
    (lms : List Point3D) (imgW imgH scale panx pany sx sy : ℚ)
    (hscale : 0 < scale) :
    ((∀ k l, lms.get? k = some l →
        hoverHit imgW imgH (screenToWorld scale panx pany sx sy) (5 / scale) l
          = false) →
      hoverProbe lms imgW imgH scale panx pany sx sy = -1) ∧
    (∀ (i : ℕ) (l : Point3D), lms.get? i = some l →
      hoverHit imgW imgH (screenToWorld scale panx pany sx sy) (5 / scale) l
        = true →
      (∀ (j : ℕ) (l' : Point3D), i < j → lms.get? j = some l' →
        hoverHit imgW imgH (screenToWorld scale panx pany sx sy) (5 / scale) l'
          = false) →
      hoverProbe lms imgW imgH scale panx pany sx sy = (i : ℤ)) := by
  set hit :=
    hoverHit imgW imgH (screenToWorld scale panx pany sx sy) (5 / scale)
    with hhit
  constructor
  · intro hnone
    rcases hoverScan_spec hit lms 0 (-1) with
      ⟨k, l, hget, hk, _, _⟩ | ⟨_, hres⟩
    · rw [hnone k l hget] at hk
      cases hk
    · exact hres
  · intro i l hget hl hmax
    rcases hoverScan_spec hit lms 0 (-1) with
      ⟨k, l', hget', hk, hres, hmax'⟩ | ⟨hnone, _⟩
    · have hki : k = i := by
        rcases lt_trichotomy k i with h | h | h
        · rw [hmax' i l h hget] at hl
          cases hl
        · exact h
        · rw [hmax k l' h hget'] at hk
          cases hk
      rw [hoverProbe, ← hhit, hres, hki]
      simp
    · rw [hnone i l hget] at hl
      cases hl

/-- Witness for the amended C2 at a concrete input: two landmarks, both in
threshold, probe returns the last index 1. -/
theorem hoverProbe_last_within_threshold_witness :
    hoverProbe [⟨0, 0, 0⟩, ⟨3, 0, 0⟩] 1 1 1 0 0 0 0 = (1 : ℤ) :=
  (hoverProbe_last_within_threshold [⟨0, 0, 0⟩, ⟨3, 0, 0⟩] 1 1 1 0 0 0 0
    (by norm_num)).2 1 ⟨3, 0, 0⟩ (by rfl) (by norm_num [hoverHit, screenToWorld])
    (by
      intro j l' hj hget
      match j, hj, hget with
      | j + 2, _, hget => simp [List.get?] at hget)

/-! ### Selection groups (Sidebar.tsx) and `handleSelectionChange` (App.tsx) -/

/-- The brush mode `'add' | 'subtract'`. -/
inductive Mode where
  | add : Mode
  | subtract : Mode
deriving DecidableEq, Repr

/-- `SelectionGroup` from Sidebar.tsx: `{id, name, indices: Set<number>,
visible, color}`.  The JS `Set` is embedded as a `Finset ℕ`. -/
structure SelectionGroup where
  id : String
  name : String
  indices : Finset ℕ
  visible : Bool
  color : String
deriving DecidableEq

/-- The `indices.forEach` loop of `handleSelectionChange`: starting from a
copy of the group's index set, insert each index in `Add` mode and delete
it in `Subtract` mode.  The source's `has` membership pre-checks (used only
to maintain the `changed` flag) are redundant for the resulting set, since
`insert`/`erase` are idempotent. -/
def applyIdx (mode : Mode) (idxs : List ℕ) (s : Finset ℕ) : Finset ℕ :=
  idxs.foldl
    (fun t idx =>
      match mode with
      | Mode.add => insert idx t
      | Mode.subtract => t.erase idx) s

/-- The body of `handleSelectionChange`'s `prevGroups.map`: groups other
than the active one are returned as-is; the active group gets the updated
index set.  The source returns the original object when nothing changed
(the `changed` flag); with extensional sets the updated record is equal to
the original in that case, so the flag is dropped. -/
def updateGroup (activeGroupId : String) (idxs : List ℕ) (mode : Mode)
    (g : SelectionGroup) : SelectionGroup :=
  if g.id ≠ activeGroupId then g
  else { g with indices := applyIdx mode idxs g.indices }

/-- `handleSelectionChange(indices, currentMode)` from App.tsx: map over the
previous group list, updating only the active group. -/
def handleSelectionChange (activeGroupId : String) (idxs : List ℕ)
    (mode : Mode) (prevGroups : List SelectionGroup) : List SelectionGroup :=
  prevGroups.map (updateGroup activeGroupId idxs mode)

theorem applyIdx_add (idxs : List ℕ) (s : Finset ℕ) :
    applyIdx Mode.add idxs s = s ∪ idxs.toFinset := by
  induction idxs generalizing s with
  | nil => simp [applyIdx]
  | cons a l ih =>
      simp only [applyIdx, List.foldl_cons] at *
      rw [ih (insert a s)]
      ext x
      simp
      try tauto

theorem applyIdx_subtract (idxs : List ℕ) (s : Finset ℕ) :
    applyIdx Mode.subtract idxs s = s \ idxs.toFinset := by
  induction idxs generalizing s with
  | nil => simp [applyIdx]
  | cons a l ih =>
      simp only [applyIdx, List.foldl_cons] at *
      rw [ih (s.erase a)]
      ext x
      simp
      tauto

/-! ### SelectionEngine (`performSelection` in CanvasArea.tsx) -/

/-- The `landmarks.forEach` collection loop of `performSelection`: the
index of every landmark whose squared world distance to the brush center is
strictly below the squared world radius is pushed, in scan order. -/
def brushHits (imgW imgH : ℚ) (w : ℚ × ℚ) (rsq : ℚ) :
    List Point3D → ℕ → List ℕ
  | [], _ => []
  | l :: rest, i =>
      if (l.x * imgW - w.1) ^ 2 + (l.y * imgH - w.2) ^ 2 < rsq then
        i :: brushHits imgW imgH w rsq rest (i + 1)
      else brushHits imgW imgH w rsq rest (i + 1)

/-- `performSelection(screenX, screenY)` from CanvasArea.tsx: convert the
screen point to world space, square the world radius `brushSize / scale`,
collect the indices strictly inside, and emit
`onSelectionChange(indices, mode)` only when at least one index was
collected (`none` = no event emitted). -/
def performSelection (lms : List Point3D) (imgW imgH scale panx pany brushSize : ℚ)
    (mode : Mode) (sx sy : ℚ) : Option (List ℕ × Mode) :=
  let hits := brushHits imgW imgH (screenToWorld scale panx pany sx sy)
      ((brushSize / scale) ^ 2) lms 0
  if 0 < hits.length then some (hits, mode) else none

/-- One full brush application: `performSelection` wired to
`handleSelectionChange` (CanvasArea emits the event, App applies it to the
active group).  When no event is emitted the group state is untouched. -/
def brushStep (lms : List Point3D) (imgW imgH scale panx pany brushSize : ℚ)
    (mode : Mode) (sx sy : ℚ) (activeGroupId : String)
    (groups : List SelectionGroup) : List SelectionGroup :=
  match performSelection lms imgW imgH scale panx pany brushSize mode sx sy with
  | none => groups
  | some (idxs, m) => handleSelectionChange activeGroupId idxs m groups

theorem brushHits_mem (imgW imgH : ℚ) (w : ℚ × ℚ) (rsq : ℚ)
    (pts : List Point3D) :
    ∀ (n i : ℕ), i ∈ brushHits imgW imgH w rsq pts n ↔
      ∃ k l, pts.get? k = some l ∧ i = n + k ∧
        (l.x * imgW - w.1) ^ 2 + (l.y * imgH - w.2) ^ 2 < rsq := by
  induction pts with
  | nil =>
      intro n i
      simp [brushHits, List.get?]
  | cons p rest ih =>
      intro n i
      rw [brushHits]
      by_cases hp : (p.x * imgW - w.1) ^ 2 + (p.y * imgH - w.2) ^ 2 < rsq
      · rw [if_pos hp]
        constructor
        · intro hmem
          rcases List.mem_cons.mp hmem with h | h
          · exact ⟨0, p, rfl, by omega, hp⟩
          · rcases (ih (n + 1) i).mp h with ⟨k, l, hget, hi, hlt⟩
            exact ⟨k + 1, l, by simpa using hget, by omega, hlt⟩
        · rintro ⟨k, l, hget, hi, hlt⟩
          cases k with
          | zero =>
              have hi0 : i = n := by omega
              subst hi0
              exact List.mem_cons_self _ _
          | succ k' =>
              exact List.mem_cons_of_mem _
                ((ih (n + 1) i).mpr ⟨k', l, by simpa using hget, by omega, hlt⟩)
      · rw [if_neg hp]
        constructor
        · intro hmem
          rcases (ih (n + 1) i).mp hmem with ⟨k, l, hget, hi, hlt⟩
          exact ⟨k + 1, l, by simpa using hget, by omega, hlt⟩
        · rintro ⟨k, l, hget, hi, hlt⟩
          cases k with
          | zero =>
              cases hget
              exact absurd hlt hp
          | succ k' =>
              exact (ih (n + 1) i).mpr ⟨k', l, by simpa using hget, by omega, hlt⟩

/-- C6: for a positive scale, the brush collects exactly the indices of the
landmarks whose squared world distance to the converted screen point is
strictly less than `(brushSize / scale)²`; and when that collection is
empty, no selection-change event is emitted and the group state is
returned unchanged (a silent no-op). -/
theorem performSelection_collects_strictly_within
    (lms : List Point3D) (imgW imgH scale panx pany brushSize sx sy : ℚ)
    (mode : Mode) (activeGroupId : String) (groups : List SelectionGroup)
    (hscale : 0 < scale) :
    (∀ i : ℕ,
      i ∈ brushHits imgW imgH (screenToWorld scale panx pany sx sy)
          ((brushSize / scale) ^ 2) lms 0 ↔
        ∃ l, lms.get? i = some l ∧
          (l.x * imgW - (screenToWorld scale panx pany sx sy).1) ^ 2 +
              (l.y * imgH - (screenToWorld scale panx pany sx sy).2) ^ 2 <
            (brushSize / scale) ^ 2) ∧
    (brushHits imgW imgH (screenToWorld scale panx pany sx sy)
        ((brushSize / scale) ^ 2) lms 0 = [] →
      performSelection lms imgW imgH scale panx pany brushSize mode sx sy
          = none ∧
      brushStep lms imgW imgH scale panx pany brushSize mode sx sy
          activeGroupId groups = groups) := by
  constructor
  · intro i
    rw [brushHits_mem]
    constructor
    · rintro ⟨k, l, hget, hi, hlt⟩
      refine ⟨l, ?_, hlt⟩
      have : k = i := by omega
      rwa [← this]
    · rintro ⟨l, hget, hlt⟩
      exact ⟨i, l, hget, by omega, hlt⟩
  · intro hnil
    have hps : performSelection lms imgW imgH scale panx pany brushSize mode sx sy
        = none := by
      rw [performSelection]
      simp only [hnil]
      rfl
    exact ⟨hps, by rw [brushStep, hps]⟩

/-- Witness for C6 at a concrete input: one landmark at the brush center,
radius 1, identity view. -/
theorem performSelection_collects_strictly_within_witness :
    (∀ i : ℕ,
      i ∈ brushHits 1 1 (screenToWorld 1 0 0 0 0)
          (((1 : ℚ) / 1) ^ 2) [⟨0, 0, 0⟩] 0 ↔
        ∃ l, ([(⟨0, 0, 0⟩ : Point3D)] : List Point3D).get? i = some l ∧
          (l.x * 1 - (screenToWorld 1 0 0 0 0).1) ^ 2 +
              (l.y * 1 - (screenToWorld 1 0 0 0 0).2) ^ 2 <
            ((1 : ℚ) / 1) ^ 2) ∧
    (brushHits 1 1 (screenToWorld 1 0 0 0 0) (((1 : ℚ) / 1) ^ 2) [⟨0, 0, 0⟩] 0
        = [] →
      performSelection [⟨0, 0, 0⟩] 1 1 1 0 0 1 Mode.add 0 0 = none ∧
      brushStep [⟨0, 0, 0⟩] 1 1 1 0 0 1 Mode.add 0 0 "1" [] = []) :=
  performSelection_collects_strictly_within [⟨0, 0, 0⟩] 1 1 1 0 0 1 0 0
    Mode.add "1" [] (by norm_num)

/-- C10: a brush-driven selection update preserves every group other than
the active one, and even for the active group it preserves `id`, `name`,
`visible` and `color` — only `indices` may change. -/
theorem handleSelectionChange_preserves_groups
    (activeGroupId : String) (idxs : List ℕ) (mode : Mode)
    (prevGroups : List SelectionGroup) (k : ℕ) (g : SelectionGroup)
    (hk : prevGroups.get? k = some g) :
    ∃ g', (handleSelectionChange activeGroupId idxs mode prevGroups).get? k
        = some g' ∧
      g'.id = g.id ∧ g'.name = g.name ∧ g'.visible = g.visible ∧
      g'.color = g.color ∧ (g.id ≠ activeGroupId → g' = g) := by
  refine ⟨updateGroup activeGroupId idxs mode g, ?_, ?_, ?_, ?_, ?_, ?_⟩
  · rw [handleSelectionChange, List.get?_map, hk]
    rfl
  · unfold updateGroup
    split <;> rfl
  · unfold updateGroup
    split <;> rfl
  · unfold updateGroup
    split <;> rfl
  · unfold updateGroup
    split <;> rfl
  · intro hne
    unfold updateGroup
    rw [if_pos hne]

/-- Witness for C10 at a concrete input: a single group that is not the
active one. -/
theorem handleSelectionChange_preserves_groups_witness :
    ∃ g', (handleSelectionChange "a" [0] Mode.add
        [⟨"b", "n", ∅, true, "c"⟩]).get? 0 = some g' ∧
      g'.id = "b" ∧ g'.name = "n" ∧ g'.visible = true ∧
      g'.color = "c" ∧ ((⟨"b", "n", ∅, true, "c"⟩ : SelectionGroup).id ≠ "a" →
        g' = ⟨"b", "n", ∅, true, "c"⟩) :=
  handleSelectionChange_preserves_groups "a" [0] Mode.add
    [⟨"b", "n", ∅, true, "c"⟩] 0 ⟨"b", "n", ∅, true, "c"⟩ rfl

theorem finset_union_sdiff_self (s t : Finset ℕ) : (s ∪ t) \ t = s \ t := by
  ext x
  simp
  tauto

/-- C1 as stated is false: when the active group already contains a brushed
index before the `Add`, the `Subtract` at the same center/radius removes
it, so the group does not return to its pre-`Add` contents.  Here the group
starts as `{0}`, the brush covers landmark 0, and Add-then-Subtract leaves
the group empty. -/
theorem brush_add_subtract_counterexample :
    brushStep [⟨0, 0, 0⟩] 1 1 1 0 0 1 Mode.subtract 0 0 "1"
      (brushStep [⟨0, 0, 0⟩] 1 1 1 0 0 1 Mode.add 0 0 "1"
        [⟨"1", "Default", {0}, true, "#bb86fc"⟩]) ≠
      [⟨"1", "Default", {0}, true, "#bb86fc"⟩] := by
  norm_num [brushStep, performSelection, brushHits, screenToWorld,
    handleSelectionChange, updateGroup, applyIdx, SelectionGroup.mk.injEq]
  intro h
  have h0 : (0 : ℕ) ∈ (∅ : Finset ℕ) := by
    rw [h]
    exact Finset.mem_singleton_self 0
  simp at h0

/-- C1 amended: an `Add` brush application followed by a `Subtract` one at
the same screen center and radius, over an unchanged PointSet and
ViewState, returns the active group's index set to its pre-`Add` contents
**minus the brushed indices** (other groups and the active group's other
fields are unchanged).  It equals the pre-`Add` contents exactly when no
brushed index was already in the set. -/
theorem brush_add_then_subtract_removes_brushed
    (lms : List Point3D) (imgW imgH scale panx pany brushSize sx sy : ℚ)
    (activeGroupId : String) (groups : List SelectionGroup)
    (hscale : 0 < scale) (k : ℕ) (g : SelectionGroup)
    (hk : groups.get? k = some g) :
    ∃ g', (brushStep lms imgW imgH scale panx pany brushSize Mode.subtract sx sy
        activeGroupId
        (brushStep lms imgW imgH scale panx pany brushSize Mode.add sx sy
          activeGroupId groups)).get? k = some g' ∧
      g'.id = g.id ∧ g'.name = g.name ∧ g'.visible = g.visible ∧
      g'.color = g.color ∧
      g'.indices = (if g.id = activeGroupId then
          g.indices \ (brushHits imgW imgH (screenToWorld scale panx pany sx sy)
            ((brushSize / scale) ^ 2) lms 0).toFinset
        else g.indices) := by
  unfold brushStep performSelection
  by_cases hl : 0 < (brushHits imgW imgH (screenToWorld scale panx pany sx sy)
      ((brushSize / scale) ^ 2) lms 0).length
  · simp only [if_pos hl]
    rw [handleSelectionChange, handleSelectionChange, List.get?_map,
      List.get?_map, hk]
    refine ⟨_, rfl, ?_⟩
    by_cases hg : g.id = activeGroupId
    · have hgne : ¬g.id ≠ activeGroupId := by simpa using hg
      unfold updateGroup
      rw [if_neg hgne]
      rw [if_neg (by simpa using hg : ¬(SelectionGroup.mk g.id g.name
        (applyIdx Mode.add (brushHits imgW imgH
          (screenToWorld scale panx pany sx sy) ((brushSize / scale) ^ 2) lms 0)
          g.indices) g.visible g.color).id ≠ activeGroupId)]
      refine ⟨rfl, rfl, rfl, rfl, ?_⟩
      rw [if_pos hg]
      simp only [applyIdx_add, applyIdx_subtract]
      exact finset_union_sdiff_self _ _
    · have hgne : g.id ≠ activeGroupId := hg
      unfold updateGroup
      rw [if_pos hgne, if_pos hgne]
      exact ⟨rfl, rfl, rfl, rfl, by rw [if_neg hg]⟩
  · simp only [if_neg hl]
    refine ⟨g, hk, rfl, rfl, rfl, rfl, ?_⟩
    have hnil : brushHits imgW imgH (screenToWorld scale panx pany sx sy)
        ((brushSize / scale) ^ 2) lms 0 = [] := by
      rcases h : brushHits imgW imgH (screenToWorld scale panx pany sx sy)
          ((brushSize / scale) ^ 2) lms 0 with _ | ⟨a, l⟩
      · rfl
      · rw [h] at hl
        simp at hl
    rw [hnil]
    split <;> simp

/-- Witness for the amended C1 at a concrete input: active group `{0}`,
brush covering landmark 0; the result is `{0} \ {0} = ∅`. -/
theorem brush_add_then_subtract_removes_brushed_witness :
    ∃ g', (brushStep [⟨0, 0, 0⟩] 1 1 1 0 0 1 Mode.subtract 0 0 "1"
        (brushStep [⟨0, 0, 0⟩] 1 1 1 0 0 1 Mode.add 0 0 "1"
          [⟨"1", "Default", {0}, true, "#bb86fc"⟩])).get? 0 = some g' ∧
      g'.id = "1" ∧ g'.name = "Default" ∧ g'.visible = true ∧
      g'.color = "#bb86fc" ∧
      g'.indices = (if "1" = "1" then
          ({0} : Finset ℕ) \ (brushHits 1 1 (screenToWorld 1 0 0 0 0)
            (((1 : ℚ) / 1) ^ 2) [⟨0, 0, 0⟩] 0).toFinset
        else ({0} : Finset ℕ)) :=
  brush_add_then_subtract_removes_brushed [⟨0, 0, 0⟩] 1 1 1 0 0 1 0 0 "1"
    [⟨"1", "Default", {0}, true, "#bb86fc"⟩] (by norm_num) 0
    ⟨"1", "Default", {0}, true, "#bb86fc"⟩ rfl

/-! ### SymmetryMapper (`calculateSymmetryMap` in geometry.ts) -/

/-- The inner nearest-neighbor loop of `calculateSymmetryMap`: `bestDist`
starts at `Infinity` (modelled as `none`, which every finite distance
beats) and `bestIdx` at `-1`; a landmark strictly closer to the reflection
than the current best replaces it (`if (d < bestDist)`), so on ties the
earlier (lower) index is kept. -/
def nearScan (r : Point3D) : List Point3D → ℕ → Option ℚ → ℤ → ℤ
  | [], _, _, bi => bi
  | q :: rest, j, none, _ =>
      nearScan r rest (j + 1) (some (distSq3 q r)) (j : ℤ)
  | q :: rest, j, some b, bi =>
      if distSq3 q r < b then
        nearScan r rest (j + 1) (some (distSq3 q r)) (j : ℤ)
      else nearScan r rest (j + 1) (some b) bi

/-- The `bestIdx` produced by `calculateSymmetryMap`'s inner loop over the
whole landmark list (`-1` when the list is empty). -/
def nearestIdx (pts : List Point3D) (r : Point3D) : ℤ :=
  nearScan r pts 0 none (-1)

/-- Invariant of the nearest-neighbor loop once a best candidate `(b, bi)`
with `bi ≤ j` exists: the final best distance `b'` never exceeds `b`, it
either stays at `(b, bi)` or comes from a strictly closer scanned landmark,
and it is minimal over the scanned landmarks with ties resolved to the
earliest index. -/
theorem nearScan_spec (r : Point3D) (pts : List Point3D) :
    ∀ (j : ℕ) (b : ℚ) (bi : ℤ), bi ≤ (j : ℤ) →
      ∃ b' : ℚ, b' ≤ b ∧
        ((b' = b ∧ nearScan r pts j (some b) bi = bi) ∨
          (∃ k q, pts.get? k = some q ∧
            nearScan r pts j (some b) bi = (j : ℤ) + k ∧
            b' = distSq3 q r ∧ b' < b)) ∧
        (∀ k q, pts.get? k = some q →
          b' ≤ distSq3 q r ∧
          (distSq3 q r ≤ b' → nearScan r pts j (some b) bi ≤ (j : ℤ) + k)) := by
  induction pts with
  | nil =>
      intro j b bi hbi
      refine ⟨b, le_refl b, Or.inl ⟨rfl, rfl⟩, ?_⟩
      intro k q hget
      simp [List.get?] at hget
  | cons p rest ih =>
      intro j b bi hbi
      rw [nearScan]
      by_cases hd : distSq3 p r < b
      · rw [if_pos hd]
        obtain ⟨b', hb'le, hprov, hmin⟩ :=
          ih (j + 1) (distSq3 p r) (j : ℤ) (by push_cast; omega)
        refine ⟨b', le_trans hb'le (le_of_lt hd), ?_, ?_⟩
        · rcases hprov with ⟨hb, hres⟩ | ⟨k, q, hget, hres, hb, hlt⟩
          · refine Or.inr ⟨0, p, rfl, ?_, hb, lt_of_le_of_lt hb'le hd⟩
            rw [hres]
            push_cast
            ring
          · refine Or.inr ⟨k + 1, q, by simpa using hget, ?_, hb,
              lt_trans hlt hd⟩
            rw [hres]
            push_cast
            ring
        · intro k q hget
          cases k with
          | zero =>
              simp only [List.get?_cons_zero, Option.some.injEq] at hget
              subst hget
              refine ⟨hb'le, ?_⟩
              intro hle
              rcases hprov with ⟨hb, hres⟩ | ⟨k', q', hget', hres, hbq, hlt⟩
              · rw [hres]
                push_cast
                omega
              · exact absurd (lt_of_le_of_lt hle hlt) (lt_irrefl _)
          | succ k' =>
              obtain ⟨hm1, hm2⟩ := hmin k' q (by simpa using hget)
              refine ⟨hm1, ?_⟩
              intro hle
              have hstep := hm2 hle
              push_cast at hstep ⊢
              omega
      · rw [if_neg hd]
        have hbd : b ≤ distSq3 p r := le_of_not_lt hd
        obtain ⟨b', hb'le, hprov, hmin⟩ :=
          ih (j + 1) b bi (by push_cast at hbi ⊢; omega)
        refine ⟨b', hb'le, ?_, ?_⟩
        · rcases hprov with ⟨hb, hres⟩ | ⟨k, q, hget, hres, hb, hlt⟩
          · exact Or.inl ⟨hb, hres⟩
          · refine Or.inr ⟨k + 1, q, by simpa using hget, ?_, hb, hlt⟩
            rw [hres]
            push_cast
            ring
        · intro k q hget
          cases k with
          | zero =>
              simp only [List.get?_cons_zero, Option.some.injEq] at hget
              subst hget
              refine ⟨le_trans hb'le hbd, ?_⟩
              intro hle
              rcases hprov with ⟨hb, hres⟩ | ⟨k', q', hget', hres, hbq, hlt⟩
              · rw [hres]
                push_cast at hbi ⊢
                omega
              · exact absurd (lt_of_le_of_lt (le_trans hbd hle) hlt)
                  (lt_irrefl b)
          | succ k' =>
              obtain ⟨hm1, hm2⟩ := hmin k' q (by simpa using hget)
              refine ⟨hm1, ?_⟩
              intro hle
              have hstep := hm2 hle
              push_cast at hstep ⊢
              omega

/-- For a non-empty landmark list, the inner loop returns the index of the
landmark closest to `r`, with ties resolved to the lowest index. -/
theorem nearestIdx_spec (pts : List Point3D) (r : Point3D) (hne : pts ≠ []) :
    ∃ j : ℕ, nearestIdx pts r = (j : ℤ) ∧
      ∃ qj, pts.get? j = some qj ∧
        ∀ k qk, pts.get? k = some qk →
          distSq3 qj r ≤ distSq3 qk r ∧
          (distSq3 qk r ≤ distSq3 qj r → j ≤ k) := by
  match pts, hne with
  | p :: rest, _ =>
    have hunfold : nearestIdx (p :: rest) r
        = nearScan r rest 1 (some (distSq3 p r)) 0 := by
      rw [nearestIdx, nearScan]
      norm_num
    rw [hunfold]
    obtain ⟨b', hb'le, hprov, hmin⟩ :=
      nearScan_spec r rest 1 (distSq3 p r) 0 (by norm_num)
    rcases hprov with ⟨hb, hres⟩ | ⟨k, q, hget, hres, hb, hlt⟩
    · refine ⟨0, by rw [hres]; norm_num, p, rfl, ?_⟩
      intro k qk hgetk
      cases k with
      | zero =>
          simp only [List.get?_cons_zero, Option.some.injEq] at hgetk
          subst hgetk
          exact ⟨le_refl _, fun _ => le_refl 0⟩
      | succ k' =>
          obtain ⟨hm1, -⟩ := hmin k' qk (by simpa using hgetk)
          rw [hb] at hm1
          exact ⟨hm1, fun _ => Nat.zero_le _⟩
    · refine ⟨k + 1, by rw [hres]; push_cast; ring, q, by simpa using hget, ?_⟩
      intro k' qk hgetk
      cases k' with
      | zero =>
          simp only [List.get?_cons_zero, Option.some.injEq] at hgetk
          subst hgetk
          refine ⟨hb ▸ le_of_lt hlt, ?_⟩
          intro hle
          rw [← hb] at hle
          exact absurd (lt_of_le_of_lt hle hlt) (lt_irrefl _)
      | succ k'' =>
          obtain ⟨hm1, hm2⟩ := hmin k'' qk (by simpa using hgetk)
          refine ⟨hb ▸ hm1, ?_⟩
          intro hle
          rw [← hb] at hle
          have hstep := hm2 hle
          rw [hres] at hstep
          push_cast at hstep ⊢
          omega

/-- The plane point of `calculateSymmetryMap`: the centroid of the three
midline landmarks 10, 152 and 168. -/
def symPlanePoint (p10 p152 p168 : Point3D) : Point3D :=
  ⟨(p10.x + p152.x + p168.x) / 3, (p10.y + p152.y + p168.y) / 3,
    (p10.z + p152.z + p168.z) / 3⟩

/-- The (unnormalized) plane normal of `calculateSymmetryMap`:
`cross(vY, vZ)` with `vY = sub(p10, p152)` (chin to forehead) and
`vZ = sub(p1, p152)` (chin to nose tip).  The source normalizes this
vector; `reflectAcross` consumes the unnormalized vector in the
algebraically equal square-root-free form. -/
def symPlaneU (p1 p10 p152 : Point3D) : Point3D :=
  cross (sub p10 p152) (sub p1 p152)

/-- `calculateSymmetryMap(landmarks)` from geometry.ts.  The source checks
`landmarks[10]`, `landmarks[152]` and `landmarks[168]` and returns the
empty map when any is missing; it reads `landmarks[1]` (the nose tip)
without a check, but in this list embedding index 1 is present whenever
index 10 is (lists have no holes), so folding it into the same match is
faithful.  The result is the map `i ↦ bestIdx` as a list indexed by `i`
(the source stores it as a record keyed by `i`). -/
def calculateSymmetryMap (lms : List Point3D) : List ℤ :=
  match lms.get? 10, lms.get? 152, lms.get? 168, lms.get? 1 with
  | some p10, some p152, some p168, some p1 =>
      lms.map (fun p =>
        nearestIdx lms
          (reflectAcross (symPlanePoint p10 p152 p168)
            (symPlaneU p1 p10 p152) p))
  | _, _, _, _ => []

theorem calculateSymmetryMap_eq_map (lms : List Point3D)
    (p1 p10 p152 p168 : Point3D)
    (h1 : lms.get? 1 = some p1) (h10 : lms.get? 10 = some p10)
    (h152 : lms.get? 152 = some p152) (h168 : lms.get? 168 = some p168) :
    calculateSymmetryMap lms = lms.map (fun p =>
      nearestIdx lms
        (reflectAcross (symPlanePoint p10 p152 p168)
          (symPlaneU p1 p10 p152) p)) := by
  rw [calculateSymmetryMap, h1, h10, h152, h168]

/-- C7: when any of the three fixed midline landmarks (index 10
forehead-top, 152 chin-bottom, 168 bridge) is absent from the input,
`calculateSymmetryMap` returns the empty map, with no correspondences and
no fallback plane. -/
theorem calculateSymmetryMap_missing_midline (lms : List Point3D)
    (h : lms.get? 10 = none ∨ lms.get? 152 = none ∨ lms.get? 168 = none) :
    calculateSymmetryMap lms = [] := by
  rcases h with h | h | h
  · rw [calculateSymmetryMap, h]
  · rw [calculateSymmetryMap, h]
    cases lms.get? 10 <;> rfl
  · rw [calculateSymmetryMap, h]
    cases lms.get? 10 <;> cases lms.get? 152 <;> rfl

/-- Witness for C7: the empty landmark list has no landmark 10, and its
symmetry map is empty. -/
theorem calculateSymmetryMap_missing_midline_witness :
    calculateSymmetryMap [] = [] :=
  calculateSymmetryMap_missing_midline [] (Or.inl rfl)

/-- C3: when the midline landmarks are present, entry `i` of the symmetry
map is the index `j` minimizing the squared Euclidean distance between
landmark `j` and the reflection of landmark `i` across the computed
symmetry plane, and among several minimizers `j` is the lowest index. -/
theorem calculateSymmetryMap_nearest_lowest (lms : List Point3D)
    (p1 p10 p152 p168 : Point3D)
    (h1 : lms.get? 1 = some p1) (h10 : lms.get? 10 = some p10)
    (h152 : lms.get? 152 = some p152) (h168 : lms.get? 168 = some p168)
    (i : ℕ) (p : Point3D) (hi : lms.get? i = some p) :
    ∃ j : ℕ, (calculateSymmetryMap lms).get? i = some (j : ℤ) ∧
      ∃ qj, lms.get? j = some qj ∧
        ∀ k qk, lms.get? k = some qk →
          distSq3 qj (reflectAcross (symPlanePoint p10 p152 p168)
              (symPlaneU p1 p10 p152) p) ≤
            distSq3 qk (reflectAcross (symPlanePoint p10 p152 p168)
              (symPlaneU p1 p10 p152) p) ∧
          (distSq3 qk (reflectAcross (symPlanePoint p10 p152 p168)
              (symPlaneU p1 p10 p152) p) ≤
            distSq3 qj (reflectAcross (symPlanePoint p10 p152 p168)
              (symPlaneU p1 p10 p152) p) → j ≤ k) := by
  have hne : lms ≠ [] := by
    intro hnil
    rw [hnil] at hi
    simp [List.get?] at hi
  obtain ⟨j, hj, qj, hqj, hmin⟩ := nearestIdx_spec lms
    (reflectAcross (symPlanePoint p10 p152 p168) (symPlaneU p1 p10 p152) p) hne
  refine ⟨j, ?_, qj, hqj, hmin⟩
  rw [calculateSymmetryMap_eq_map lms p1 p10 p152 p168 h1 h10 h152 h168,
    List.get?_map, hi]
  simpa using hj

/-- C9: when index 168 (hence also 1, 10 and 152) is present, the symmetry
map is total — defined on every index of the landmark list — and each of
its values is a valid landmark index in `[0, N)`. -/
theorem calculateSymmetryMap_total_in_range (lms : List Point3D)
    (h : 168 < lms.length) :
    (calculateSymmetryMap lms).length = lms.length ∧
    ∀ v ∈ calculateSymmetryMap lms, 0 ≤ v ∧ v < (lms.length : ℤ) := by
  have h1 : lms.get? 1 = some (lms.get ⟨1, by omega⟩) := List.get?_eq_get _
  have h10 : lms.get? 10 = some (lms.get ⟨10, by omega⟩) := List.get?_eq_get _
  have h152 : lms.get? 152 = some (lms.get ⟨152, by omega⟩) :=
    List.get?_eq_get _
  have h168 : lms.get? 168 = some (lms.get ⟨168, by omega⟩) :=
    List.get?_eq_get _
  rw [calculateSymmetryMap_eq_map lms _ _ _ _ h1 h10 h152 h168]
  refine ⟨List.length_map _ _, ?_⟩
  intro v hv
  obtain ⟨p, hp, hpv⟩ := List.mem_map.mp hv
  have hne : lms ≠ [] := by
    intro hnil
    rw [hnil] at h
    simp at h
  obtain ⟨j, hj, qj, hqj, -⟩ := nearestIdx_spec lms
    (reflectAcross (symPlanePoint (lms.get ⟨10, by omega⟩)
        (lms.get ⟨152, by omega⟩) (lms.get ⟨168, by omega⟩))
      (symPlaneU (lms.get ⟨1, by omega⟩) (lms.get ⟨10, by omega⟩)
        (lms.get ⟨152, by omega⟩)) p) hne
  rw [← hpv, hj]
  obtain ⟨hlt, -⟩ := List.get?_eq_some.mp hqj
  constructor
  · exact_mod_cast Nat.zero_le j
  · exact_mod_cast hlt

/-- A 169-landmark list (all at the origin), long enough to contain the
midline indices; concrete input for the symmetry-map witnesses. -/
def pts169 : List Point3D := List.replicate 169 ⟨0, 0, 0⟩

theorem get?_replicate_of_lt (a : Point3D) (n k : ℕ) (h : k < n) :
    (List.replicate n a).get? k = some a := by
  induction n generalizing k with
  | zero => omega
  | succ n ih =>
      cases k with
      | zero => rfl
      | succ k' =>
          rw [List.replicate_succ]
          simpa using ih k' (by omega)

/-- Witness for C3 on the concrete 169-landmark list, at index 0. -/
theorem calculateSymmetryMap_nearest_lowest_witness :
    ∃ j : ℕ, (calculateSymmetryMap pts169).get? 0 = some (j : ℤ) ∧
      ∃ qj, pts169.get? j = some qj ∧
        ∀ k qk, pts169.get? k = some qk →
          distSq3 qj (reflectAcross (symPlanePoint ⟨0, 0, 0⟩ ⟨0, 0, 0⟩ ⟨0, 0, 0⟩)
              (symPlaneU ⟨0, 0, 0⟩ ⟨0, 0, 0⟩ ⟨0, 0, 0⟩) ⟨0, 0, 0⟩) ≤
            distSq3 qk (reflectAcross (symPlanePoint ⟨0, 0, 0⟩ ⟨0, 0, 0⟩ ⟨0, 0, 0⟩)
              (symPlaneU ⟨0, 0, 0⟩ ⟨0, 0, 0⟩ ⟨0, 0, 0⟩) ⟨0, 0, 0⟩) ∧
          (distSq3 qk (reflectAcross (symPlanePoint ⟨0, 0, 0⟩ ⟨0, 0, 0⟩ ⟨0, 0, 0⟩)
              (symPlaneU ⟨0, 0, 0⟩ ⟨0, 0, 0⟩ ⟨0, 0, 0⟩) ⟨0, 0, 0⟩) ≤
            distSq3 qj (reflectAcross (symPlanePoint ⟨0, 0, 0⟩ ⟨0, 0, 0⟩ ⟨0, 0, 0⟩)
              (symPlaneU ⟨0, 0, 0⟩ ⟨0, 0, 0⟩ ⟨0, 0, 0⟩) ⟨0, 0, 0⟩) → j ≤ k) :=
  calculateSymmetryMap_nearest_lowest pts169 ⟨0, 0, 0⟩ ⟨0, 0, 0⟩ ⟨0, 0, 0⟩
    ⟨0, 0, 0⟩
    (get?_replicate_of_lt _ _ _ (by norm_num))
    (get?_replicate_of_lt _ _ _ (by norm_num))
    (get?_replicate_of_lt _ _ _ (by norm_num))
    (get?_replicate_of_lt _ _ _ (by norm_num))
    0 ⟨0, 0, 0⟩ (get?_replicate_of_lt _ _ _ (by norm_num))

/-- Witness for C9 on the concrete 169-landmark list. -/
theorem calculateSymmetryMap_total_in_range_witness :
    (calculateSymmetryMap pts169).length = pts169.length ∧
    ∀ v ∈ calculateSymmetryMap pts169, 0 ≤ v ∧ v < (pts169.length : ℤ) :=
  calculateSymmetryMap_total_in_range pts169
    (by rw [pts169, List.length_replicate]; norm_num)

/-! ### Export / Import (App.tsx) -/

/-- A parsed JSON value appearing as an entry value of an imported object:
either an array of indices, or a value that is not an array (for which
`Array.isArray` is false and no group is created). -/
inductive JVal where
  | arr : List ℕ → JVal
  | notArr : JVal
deriving DecidableEq

/-- The `Object.entries(json).forEach(([name, indices], idx) => ...)` loop
of `handleImportJSON`'s object branch.  `generateId()` is called once per
entry, in order (modelled by `ids` applied to the entry position `idx`);
`getRandomColor()` is called only for entries whose value is an array
(modelled by `colors` applied to the count `c` of such calls made so far).
Non-array entries produce no group. -/
def importGroupsAux (ids colors : ℕ → String) :
    List (String × JVal) → ℕ → ℕ → List SelectionGroup
  | [], _, _ => []
  | (key, JVal.arr xs) :: rest, idx, c =>
      ⟨ids idx, key, xs.toFinset, true, colors c⟩ ::
        importGroupsAux ids colors rest (idx + 1) (c + 1)
  | (_, JVal.notArr) :: rest, idx, c =>
      importGroupsAux ids colors rest (idx + 1) c

/-- The object branch of `handleImportJSON`: build the new groups;
`firstId` is the id generated for the **first key**, assigned at
`idx === 0` **before** the `Array.isArray` check; if at least one group
was built, replace all groups and set the active id to `firstId`,
otherwise alert and leave the state untouched. -/
def handleImportObject (ids colors : ℕ → String)
    (entries : List (String × JVal))
    (prev : List SelectionGroup × String) : List SelectionGroup × String :=
  let newGroups := importGroupsAux ids colors entries 0 0
  let firstId :=
    match entries with
    | [] => ""
    | _ :: _ => ids 0
  if 0 < newGroups.length then (newGroups, firstId) else prev

/-- C4's parenthetical fails on the code (a bug): importing
`{"a": <not an array>, "b": [1]}` builds only the group for `"b"` (with the
second generated id `"B"`), yet sets the active id to `"A"`, the id
generated for the skipped first key — an id that refers to no group in the
new list. -/
theorem handleImportObject_dangling_active_id :
    (handleImportObject (fun n => if n = 0 then "A" else "B") (fun _ => "c")
        [("a", JVal.notArr), ("b", JVal.arr [1])]
        ([⟨"1", "Default", ∅, true, "#bb86fc"⟩], "1")).2 = "A" ∧
    (handleImportObject (fun n => if n = 0 then "A" else "B") (fun _ => "c")
        [("a", JVal.notArr), ("b", JVal.arr [1])]
        ([⟨"1", "Default", ∅, true, "#bb86fc"⟩], "1")).1.map
      SelectionGroup.id = ["B"] ∧
    ("A" : String) ∉ ["B"] := by
  refine ⟨rfl, rfl, by simp⟩

/-- The `exportData[g.name] = ...` assignment of `handleExport`, with JS
object semantics: assigning an existing string key replaces its value in
place (keys keep their first-insertion position); a new key is appended. -/
def upsert (key : String) (v : List ℕ) :
    List (String × List ℕ) → List (String × List ℕ)
  | [] => [(key, v)]
  | (n, w) :: rest =>
      if n = key then (n, v) :: rest else (n, w) :: upsert key v rest

/-- The export object built by `handleExport`:
`groups.forEach(g => { exportData[g.name] =
Array.from(g.indices).sort((a, b) => a - b); })`, as an insertion-ordered
association list (the shape `JSON.stringify` serializes and
`Object.entries` later reads back in the same order). -/
def exportData (groups : List SelectionGroup) : List (String × List ℕ) :=
  groups.foldl (fun acc g => upsert g.name (g.indices.sort (· ≤ ·)) acc) []

theorem upsert_ne_nil (key : String) (v : List ℕ)
    (acc : List (String × List ℕ)) : upsert key v acc ≠ [] := by
  cases acc with
  | nil => simp [upsert]
  | cons a rest =>
      obtain ⟨n, w⟩ := a
      rw [upsert]
      split <;> simp

theorem exportData_loop_ne_nil (gs : List SelectionGroup) :
    ∀ acc, acc ≠ [] →
      gs.foldl (fun acc g => upsert g.name (g.indices.sort (· ≤ ·)) acc) acc
        ≠ [] := by
  induction gs with
  | nil =>
      intro acc h
      simpa using h
  | cons g rest ih =>
      intro acc h
      rw [List.foldl_cons]
      exact ih _ (upsert_ne_nil _ _ _)

theorem exportData_ne_nil (gs : List SelectionGroup) (h : gs ≠ []) :
    exportData gs ≠ [] := by
  match gs, h with
  | g :: rest, _ =>
    rw [exportData, List.foldl_cons]
    exact exportData_loop_ne_nil rest _ (upsert_ne_nil _ _ _)

theorem mem_upsert (key : String) (v : List ℕ)
    (acc : List (String × List ℕ)) :
    ∀ p ∈ upsert key v acc, p.2 = v ∨ p ∈ acc := by
  induction acc with
  | nil =>
      intro p hp
      simp [upsert] at hp
      left
      rw [hp]
  | cons a rest ih =>
      obtain ⟨n, w⟩ := a
      rw [upsert]
      split
      · intro p hp
        rcases List.mem_cons.mp hp with rfl | hm
        · exact Or.inl rfl
        · exact Or.inr (List.mem_cons_of_mem _ hm)
      · intro p hp
        rcases List.mem_cons.mp hp with rfl | hm
        · exact Or.inr (List.mem_cons_self _ _)
        · rcases ih p hm with h | h
          · exact Or.inl h
          · exact Or.inr (List.mem_cons_of_mem _ h)

theorem exportData_vals (gs : List SelectionGroup) :
    ∀ p ∈ exportData gs, ∃ s : Finset ℕ, p.2 = s.sort (· ≤ ·) := by
  suffices hgen : ∀ (gs : List SelectionGroup)
      (acc : List (String × List ℕ)),
      (∀ p ∈ acc, ∃ s : Finset ℕ, p.2 = s.sort (· ≤ ·)) →
      ∀ p ∈ gs.foldl
          (fun acc g => upsert g.name (g.indices.sort (· ≤ ·)) acc) acc,
        ∃ s : Finset ℕ, p.2 = s.sort (· ≤ ·) by
    intro p hp
    exact hgen gs [] (by simp) p hp
  intro gs
  induction gs with
  | nil =>
      intro acc hacc
      simpa using hacc
  | cons g rest ih =>
      intro acc hacc p hp
      rw [List.foldl_cons] at hp
      refine ih _ ?_ p hp
      intro q hq
      rcases mem_upsert _ _ _ q hq with h | h
      · exact ⟨g.indices, h⟩
      · exact hacc q h

theorem importGroupsAux_names_indices (ids colors : ℕ → String)
    (entries : List (String × List ℕ)) :
    ∀ (idx c : ℕ),
      (∀ p ∈ entries, ∃ s : Finset ℕ, p.2 = s.sort (· ≤ ·)) →
      (importGroupsAux ids colors
          (entries.map (fun p => (p.1, JVal.arr p.2))) idx c).map
        (fun g => (g.name, g.indices.sort (· ≤ ·))) = entries := by
  induction entries with
  | nil =>
      intro idx c h
      rfl
  | cons e rest ih =>
      intro idx c h
      obtain ⟨n, v⟩ := e
      obtain ⟨s, hs⟩ := h (n, v) (List.mem_cons_self _ _)
      simp only at hs
      subst hs
      rw [List.map_cons, importGroupsAux, List.map_cons]
      rw [Finset.sort_toFinset]
      rw [ih (idx + 1) (c + 1) (fun p hp => h p (List.mem_cons_of_mem _ hp))]

/-- C8: importing the object-of-arrays output of the export replaces the
groups with one group per exported key, and the resulting groups' names and
ascending-sorted index arrays are exactly the exported key/value pairs
(round-trip of names and index sets through the export object). -/
theorem export_import_round_trip (ids colors : ℕ → String)
    (groups : List SelectionGroup) (activeId : String) (hne : groups ≠ []) :
    (handleImportObject ids colors
        ((exportData groups).map (fun p => (p.1, JVal.arr p.2)))
        (groups, activeId)).1.map
      (fun g => (g.name, g.indices.sort (· ≤ ·))) = exportData groups := by
  have hmain := importGroupsAux_names_indices ids colors (exportData groups)
    0 0 (exportData_vals groups)
  have hlen : (importGroupsAux ids colors
      ((exportData groups).map (fun p => (p.1, JVal.arr p.2))) 0 0).length
      = (exportData groups).length := by
    have hcast := congrArg List.length hmain
    simpa using hcast
  have hpos : 0 < (importGroupsAux ids colors
      ((exportData groups).map (fun p => (p.1, JVal.arr p.2))) 0 0).length := by
    rw [hlen]
    exact List.length_pos.mpr (exportData_ne_nil groups hne)
  simp only [handleImportObject]
  rw [if_pos hpos]
  exact hmain

/-- Witness for C8 on a concrete one-group list. -/
theorem export_import_round_trip_witness :
    (handleImportObject (fun _ => "i") (fun _ => "c")
        ((exportData [⟨"1", "Default", ∅, true, "#bb86fc"⟩]).map
          (fun p => (p.1, JVal.arr p.2)))
        ([⟨"1", "Default", ∅, true, "#bb86fc"⟩], "1")).1.map
      (fun g => (g.name, g.indices.sort (· ≤ ·)))
      = exportData [⟨"1", "Default", ∅, true, "#bb86fc"⟩] :=
  export_import_round_trip (fun _ => "i") (fun _ => "c")
    [⟨"1", "Default", ∅, true, "#bb86fc"⟩] "1" (by simp)

end FaceMesh
